import Mathlib

/-!
Verification development for the DrugBank XML-to-JSON normalisation pipeline
(src/data/drugbank.py).  The Python value universe that flows through the
pipeline (None / str / int / list / dict) is embedded as the mutual inductive
family `Value` / `VList` / `VDict` below; each pipeline function of the source
is translated into a Lean function over that family, and the claims about the
pipeline are settled as theorems about those functions.

Python str methods (strip, split, replace, startswith, lexicographic
comparison) are library code, not code of the repository; they are modelled
here by executable character-list functions so that every definition of the
development evaluates inside the kernel.
-/

/-! ## Models of the Python string methods used by the source -/

/-- Whitespace as stripped by Python str.strip (model: the ASCII whitespace
characters that occur in the data). -/
def pyIsSpace (c : Char) : Bool :=
  c == ' ' || c == '\t' || c == '\n' || c == '\r'

/-- Model of Python str.strip: drop whitespace from both ends. -/
def pyStrip (s : String) : String :=
  String.mk (((s.data.dropWhile pyIsSpace).reverse.dropWhile pyIsSpace).reverse)

/-- If the character list starts with the separator, the rest; otherwise none. -/
def dropSep : List Char → List Char → Option (List Char)
  | s, [] => some s
  | [], _ :: _ => none
  | c :: cs, p :: ps => if c == p then dropSep cs ps else none

/-- Push one character onto the first token of a token list. -/
def consHead (c : Char) : List (List Char) → List (List Char)
  | [] => [[c]]
  | t :: ts => (c :: t) :: ts

/-- Worker for `pySplit`; the fuel is an upper bound on the number of steps
(one step consumes at least one character, so `length + 1` always suffices). -/
def pySplitChars (sep : List Char) : Nat → List Char → List (List Char)
  | 0, s => [s]
  | fuel + 1, s =>
    match dropSep s sep with
    | some rest => [] :: pySplitChars sep fuel rest
    | none =>
      match s with
      | [] => [[]]
      | c :: cs => consHead c (pySplitChars sep fuel cs)

/-- Model of Python s.split(sep) for a non-empty separator. -/
def pySplit (s sep : String) : List String :=
  (pySplitChars sep.data (s.data.length + 1) s.data).map fun cs => String.mk cs

/-- Model of Python s.replace(a, b) for a non-empty pattern:
b.join(s.split(a)), which is how CPython specifies it. -/
def pyReplace (s a b : String) : String :=
  String.intercalate b (pySplit s a)

/-- Model of the Python substring test `a in s` for a non-empty pattern. -/
def pyContains (s a : String) : Bool :=
  (pySplit s a).length != 1

/-- Model of Python s.startswith(p). -/
def pyStartsWith (s p : String) : Bool :=
  (dropSep s.data p.data).isSome

/-- Model of Python strict lexicographic string comparison (by code point). -/
def charsLt : List Char → List Char → Bool
  | [], [] => false
  | [], _ :: _ => true
  | _ :: _, [] => false
  | a :: as, b :: bs => if a == b then charsLt as bs else decide (a.toNat < b.toNat)

/-- Model of Python string less-or-equal, used by sorted(). -/
def pyLe (a b : String) : Bool :=
  a == b || charsLt a.data b.data

/-- Insert into a sorted list, keeping the order of `pyLe`. -/
def sortedInsert (a : String) : List String → List String
  | [] => [a]
  | b :: rest => if pyLe a b then a :: b :: rest else b :: sortedInsert a rest

/-- Model of Python sorted() on a list of strings (insertion sort). -/
def pySorted : List String → List String
  | [] => []
  | a :: rest => sortedInsert a (pySorted rest)

/-! ## The value universe

Python values flowing through the pipeline: None, str, int, list, dict.
Lists and dicts are given their own inductive types so that every function
of the development is structurally recursive and kernel-evaluable; a dict is
its insertion-ordered list of key/value entries (Python dicts preserve
insertion order and have unique keys). -/

mutual

inductive Value where
  | null : Value
  | vStr : String → Value
  | vInt : Int → Value
  | vList : VList → Value
  | vDict : VDict → Value
  deriving DecidableEq, Repr

inductive VList where
  | nil : VList
  | cons : Value → VList → VList
  deriving DecidableEq, Repr

inductive VDict where
  | nil : VDict
  | cons : String → Value → VDict → VDict
  deriving DecidableEq, Repr

end

/-- Build a `VList` from a Lean list (notation helper for concrete values). -/
def VList.ofList : List Value → VList
  | [] => .nil
  | v :: rest => .cons v (VList.ofList rest)

/-- Build a `VDict` from a Lean list of entries (notation helper). -/
def VDict.ofList : List (String × Value) → VDict
  | [] => .nil
  | (k, v) :: rest => .cons k v (VDict.ofList rest)

/-- Length of a `VList`. -/
def VList.length : VList → Nat
  | .nil => 0
  | .cons _ rest => 1 + rest.length

/-- Python `key in d` / `d[key]`: the value stored under the first matching
key, if any. -/
def lookupKey : VDict → String → Option Value
  | .nil, _ => none
  | .cons k v rest, key => if k = key then some v else lookupKey rest key

/-- Python `d[key] = v`: replace the value of an existing key in place,
otherwise append the new entry at the end (insertion order). -/
def setKey : VDict → String → Value → VDict
  | .nil, key, newV => .cons key newV .nil
  | .cons k v rest, key, newV =>
    if k = key then .cons k newV rest else .cons k v (setKey rest key newV)

/-- The keys of a dict, in insertion order (Python d.keys()). -/
def vdictKeys : VDict → List String
  | .nil => []
  | .cons k _ rest => k :: vdictKeys rest

/-! ## Plural unification (src/data/drugbank.py, transform_json and helpers) -/

/-- src lines 74-80: unify_to_array. -/
def unify_to_array : Value → Value
  | .null => .vList .nil
  | .vList l => .vList l
  | v => .vList (.cons v .nil)

/-- src lines 82-85: check_singular_plural. -/
def check_singular_plural (singular plural : String) : Bool :=
  if singular == "category" && plural == "categories" then true
  else singular ++ "s" == plural

mutual

/-- src lines 132-158: transform_json.  A dict entry whose value is a
one-key dict passing the singular/plural check is collapsed with
unify_to_array; every other value is transformed recursively.  The
singular/plural hook lives in `transform_entries` (the loop over
obj.items()); its else-branch writes transform_json of the one-entry dict
with that call unfolded one definitional step, so that the recursion is
structural. -/
def transform_json : Value → Value
  | .null => .null
  | .vStr s => .vStr s
  | .vInt n => .vInt n
  | .vList items => .vList (transform_list items)
  | .vDict entries => .vDict (transform_entries entries)

/-- The list comprehension of src line 156. -/
def transform_list : VList → VList
  | .nil => .nil
  | .cons v rest => .cons (transform_json v) (transform_list rest)

/-- The loop over obj.items() of src lines 143-152. -/
def transform_entries : VDict → VDict
  | .nil => .nil
  | .cons key (.vDict (.cons sub inner .nil)) rest =>
    if check_singular_plural sub key then
      .cons key (unify_to_array (transform_json inner)) (transform_entries rest)
    else
      .cons key (.vDict (transform_entries (.cons sub inner .nil))) (transform_entries rest)
  | .cons key v rest => .cons key (transform_json v) (transform_entries rest)

end

/-- The per-entry branch of src lines 144-152, as a standalone function:
transform_entries equals the entrywise application of this (see
`transform_entries_cons`). -/
def transform_entry (key : String) (v : Value) : Value :=
  match v with
  | .vDict (.cons sub inner .nil) =>
    if check_singular_plural sub key then unify_to_array (transform_json inner)
    else transform_json (.vDict (.cons sub inner .nil))
  | v => transform_json v

/-! ## The Tree Builder (src/data/drugbank.py, tojson: parse_element) -/

mutual

/-- A source XML element: tag, attributes, direct text, ordered children. -/
inductive XmlElem where
  | mk : String → List (String × String) → Option String → XmlChildren → XmlElem
  deriving DecidableEq, Repr

/-- Ordered child elements. -/
inductive XmlChildren where
  | nil : XmlChildren
  | cons : XmlElem → XmlChildren → XmlChildren
  deriving DecidableEq, Repr

end

def XmlElem.tag : XmlElem → String
  | .mk t _ _ _ => t

def XmlElem.attrib : XmlElem → List (String × String)
  | .mk _ a _ _ => a

def XmlElem.text : XmlElem → Option String
  | .mk _ _ tx _ => tx

def XmlElem.children : XmlElem → XmlChildren
  | .mk _ _ _ c => c

/-- src lines 35-41: remove_namespace_and_hyphen
(tag.split("\x7d")[-1] with hyphens replaced by underscores). -/
def remove_namespace_and_hyphen (tag : String) : String :=
  pyReplace ((pySplit tag "\x7d").getLastD "") "-" "_"

/-- The truthy stripped direct text of an element: the value of
elem.text.strip() with "" standing for a missing or falsy text
(src line 46 tests elem.text and elem.text.strip()). -/
def elem_direct_text (e : XmlElem) : String :=
  match e.text with
  | none => ""
  | some s => pyStrip s

/-- Python children_by_tag.setdefault(key, []).append(v) (src line 62):
group by key, first-occurrence key order, appending in document order. -/
def addToGroup : List (String × List Value) → String → Value → List (String × List Value)
  | [], k, v => [(k, [v])]
  | (k1, vs) :: rest, k, v =>
    if k1 = k then (k1, vs ++ [v]) :: rest else (k1, vs) :: addToGroup rest k v

/-- The grouping loop of src lines 59-62. -/
def group_pairs (pairs : List (String × Value)) : List (String × List Value) :=
  pairs.foldl (fun acc p => addToGroup acc p.1 p.2) []

mutual

/-- src lines 43-71: parse_element.  If the element has truthy text (after
strip) and no attributes, the trimmed text is returned at once (src lines
46-47) — children are never consulted on that path.  Otherwise a dict is
built: a text key when truthy text and attributes are both present, one key
per normalised attribute name, then the children grouped by normalised tag
(a list for a tag occurring more than once, the single child otherwise);
an empty dict becomes None (src line 71, result or None). -/
def parse_element : XmlElem → Value
  | .mk tag attrib text children =>
    let t := elem_direct_text (.mk tag attrib text children)
    if t ≠ "" ∧ attrib = [] then .vStr t
    else
      let r0 : VDict := if t ≠ "" ∧ attrib ≠ [] then .cons "text" (.vStr t) .nil else .nil
      let r1 := attrib.foldl
        (fun acc p => setKey acc (remove_namespace_and_hyphen p.1) (.vStr p.2)) r0
      let groups := group_pairs (parse_children children)
      let r2 := groups.foldl
        (fun acc g =>
          setKey acc g.1 (if 1 < g.2.length then .vList (VList.ofList g.2) else g.2.headD .null))
        r1
      if r2 = .nil then .null else .vDict r2

/-- The loop over elem of src lines 60-62, pairing each child's normalised
tag with its parsed value. -/
def parse_children : XmlChildren → List (String × Value)
  | .nil => []
  | .cons c rest => (remove_namespace_and_hyphen c.tag, parse_element c) :: parse_children rest

end

/-- A concrete element with non-whitespace text, no attributes and one child. -/
def c1elem : XmlElem :=
  XmlElem.mk "a" [] (some "x") (.cons (.mk "b" [] (some "y") .nil) .nil)

/-! ## The Cardinality Corrector (src/data/drugbank.py, set_default_if_empty) -/

/-- Python isinstance(v, str) or isinstance(v, dict) (src lines 121-124). -/
def isStrOrDict : Value → Bool
  | .vStr _ => true
  | .vDict _ => true
  | _ => false

/-- Python isinstance(v, list). -/
def isListValue : Value → Bool
  | .vList _ => true
  | _ => false

/-- Python path[-1] on a non-empty list (with a default for the empty case,
which the callers below never reach without raising first). -/
def lastSegment : List String → String → String
  | [], d => d
  | [x], _ => x
  | _ :: y :: rest, d => lastSegment (y :: rest) d

/-- src lines 118-128: the final-key step of set_default_if_empty, run on the
current level after the loop over path[:-1].  An absent final key leaves the
dict untouched; a present non-null str or dict value is wrapped into a
one-element list when the default is a list; a value that is then null or
empty string is replaced by the default. -/
def sdie_final (entries : VDict) (finalKey : String) (dflt : Value) : VDict :=
  match lookupKey entries finalKey with
  | none => entries
  | some v =>
    let v1 := if v ≠ Value.null ∧ isStrOrDict v = true ∧ isListValue dflt = true
      then Value.vList (.cons v .nil) else v
    let v2 := if v1 = Value.null ∨ v1 = Value.vStr "" then dflt else v1
    setKey entries finalKey v2

mutual

/-- src lines 87-130: set_default_if_empty.  none models a raised exception
(path[-1] on an empty path, src line 118); some models the returned value —
in particular the implicit Python return None (modelled as some .null) when
the input is neither a list nor a dict (no branch of src lines 95-130
matches). -/
def set_default_if_empty : Value → List String → Value → Option Value
  | .vList items, [], dflt =>
    (sdie_list items [] dflt).map Value.vList
  | .vList items, _ :: ps, dflt =>
    (sdie_list items ps dflt).map Value.vList
  | .vDict _, [], _ => none
  | .vDict entries, p :: ps, dflt =>
    sdie_loop entries ((p :: ps).dropLast) ps (lastSegment (p :: ps) p) dflt
  | _, _, _ => some .null
  termination_by v path => (path.length, 2 * sizeOf v, 0)

/-- The list comprehension of src lines 96-98 and 109-112:
set_default_if_empty(item, path[1:], default) over every item. -/
def sdie_list : VList → List String → Value → Option VList
  | .nil, _, _ => some .nil
  | .cons item rest, path, dflt =>
    match set_default_if_empty item path dflt, sdie_list rest path dflt with
    | some v, some vs => some (.cons v vs)
    | _, _ => none
  termination_by items path => (path.length, 2 * sizeOf items + 1, 0)

/-- src lines 102-130: the loop of set_default_if_empty over the keys of
path[:-1] (keys), with path[1:] (rest) used for the recursive calls and
path[-1] (finalKey) for the final step; the dict is threaded through the
loop as Python mutates current_level in place.  An intermediate key that is
present with a null or empty-string value returns the current dict at once
(src lines 106-107); an absent key just moves to the next loop iteration. -/
def sdie_loop (entries : VDict) (keys : List String) (rest : List String)
    (finalKey : String) (dflt : Value) : Option Value :=
  match keys with
  | [] => some (.vDict (sdie_final entries finalKey dflt))
  | k :: ks =>
    match lookupKey entries k with
    | none => sdie_loop entries ks rest finalKey dflt
    | some v =>
      if v = Value.null ∨ v = Value.vStr "" then some (.vDict entries)
      else
        match v with
        | .vList items =>
          match sdie_list items rest dflt with
          | none => none
          | some items' => sdie_loop (setKey entries k (.vList items')) ks rest finalKey dflt
        | .vDict es =>
          match set_default_if_empty (.vDict es) rest dflt with
          | none => none
          | some v2 => sdie_loop (setKey entries k v2) ks rest finalKey dflt
        | _ => sdie_loop entries ks rest finalKey dflt
  termination_by (rest.length + 1, 0, keys.length)

end

/-- The record {"products": [{}]}: products present, ndc_id absent. -/
def c5rec : Value := .vDict (.cons "products" (.vList (.cons (.vDict .nil) .nil)) .nil)

/-- The record {"targets": [[{}]]}: a doubly nested list below an
intermediate key. -/
def c6rec : Value :=
  .vDict (.cons "targets" (.vList (.cons (.vList (.cons (.vDict .nil) .nil)) .nil)) .nil)

/-! ## The Field Post-Processor (src/data/drugbank.py, tojson lines 256-258) -/

/-- Python v[0]: the first element of a list, the first character of a
non-empty string (as a one-character string); anything else raises
(IndexError / KeyError / TypeError), modelled as none. -/
def indexZero : Value → Option Value
  | .vList (.cons first _) => some first
  | .vStr s =>
    match s.data with
    | [] => none
    | c :: _ => some (.vStr (String.mk [c]))
  | _ => none

/-- src lines 256-258: the drugbank_id block of the per-drug post-processing
loop (the type/state renames of lines 248-254 are separate rewrites not
involved here).  The original drugbank_id value is stored under xrefs, and
drugbank_id is replaced by its first element, prepended with "DrugBank:"
exactly when that element starts with "DB".  none models a raised
exception (first element missing or not a string). -/
def tojson_xrefs_step (entries : VDict) : Option VDict :=
  match lookupKey entries "drugbank_id" with
  | none => some entries
  | some dbid =>
    let entries1 := setKey entries "xrefs" dbid
    match indexZero dbid with
    | some (.vStr s) =>
      some (setKey entries1 "drugbank_id"
        (.vStr (if pyStartsWith s "DB" then "DrugBank:" ++ s else s)))
    | _ => none

/-! ## The delimited-text serializer (src/data/drugbank.py, format_value
and save_data_as_tsv) -/

/-- Model of the library call json.dumps(value, ensure_ascii=False) used by
format_value for dict values: compact JSON with the default ", " / ": "
separators and backslash escaping for the common control characters. -/
def jsonQuote (s : String) : String :=
  "\"" ++ pyReplace (pyReplace (pyReplace (pyReplace (pyReplace
    s "\\" "\\\\") "\"" "\\\"") "\n" "\\n") "\r" "\\r") "\t" "\\t" ++ "\""

mutual

def json_dumps : Value → String
  | .null => "null"
  | .vStr s => jsonQuote s
  | .vInt n => toString n
  | .vList l => "[" ++ json_dumps_list l ++ "]"
  | .vDict d => "\x7b" ++ json_dumps_entries d ++ "\x7d"

def json_dumps_list : VList → String
  | .nil => ""
  | .cons v .nil => json_dumps v
  | .cons v rest => json_dumps v ++ ", " ++ json_dumps_list rest

def json_dumps_entries : VDict → String
  | .nil => ""
  | .cons k v .nil => jsonQuote k ++ ": " ++ json_dumps v
  | .cons k v rest => jsonQuote k ++ ": " ++ json_dumps v ++ ", " ++ json_dumps_entries rest

end

mutual

/-- src lines 266-276: format_value.  A list becomes a brace-delimited,
comma-separated literal of recursively formatted elements; a dict is
serialised as an embedded JSON document; a string is quoted with backslash,
newline, carriage-return and tab escaped; anything else is Python str()
(None for null, decimal for int). -/
def format_value : Value → String
  | .vList l => "\x7b" ++ String.intercalate "," (format_value_list l) ++ "\x7d"
  | .vDict d => json_dumps (.vDict d)
  | .vStr s =>
    "\"" ++ pyReplace (pyReplace (pyReplace (pyReplace
      s "\\" "\\\\") "\n" "\\n") "\r" "\\r") "\t" "\\t" ++ "\""
  | .null => "None"
  | .vInt n => toString n

/-- The formatted elements of a list value (src line 268). -/
def format_value_list : VList → List String
  | .nil => []
  | .cons v rest => format_value v :: format_value_list rest

end

/-- Python set(item.keys()) for one record (src line 281): raises, modelled
as none, when the record is not a dict. -/
def item_keys : Value → Option (List String)
  | .vDict d => some (vdictKeys d)
  | _ => none

/-- Python set.intersection(*all_fields) folding from the left over the
remaining records (src line 282). -/
def inter_fold : Finset String → List Value → Option (Finset String)
  | acc, [] => some acc
  | acc, item :: rest =>
    match item_keys item with
    | none => none
    | some ks => inter_fold (acc ∩ ks.toFinset) rest

/-- src lines 281-282: the common-field computation; none models the
TypeError raised by set.intersection applied to zero sets (empty record
list) or an AttributeError from a non-dict record. -/
def common_fields : List Value → Option (Finset String)
  | [] => none
  | item :: rest =>
    match item_keys item with
    | none => none
    | some ks => inter_fold ks.toFinset rest

/-- src lines 292-298: one output row — the common fields present in the
record, each formatted with format_value, in column order. -/
def tsv_row (cols : List String) (item : Value) : List (String × String) :=
  match item with
  | .vDict d => cols.filterMap (fun f => (lookupKey d f).map (fun v => (f, format_value v)))
  | _ => []

/-- src lines 279-298: save_data_as_tsv, modelled as the produced table:
the header (column list) and one row per record.  Python iterates the
common-field set in unspecified hash order; the model canonicalises that
order by sorting the column names. -/
def save_data_as_tsv (data : List Value) :
    Option (List String × List (List (String × String))) :=
  match common_fields data with
  | none => none
  | some common =>
    let cols := common.sort (· ≤ ·)
    some (cols, data.map (tsv_row cols))

/-- Three records with key sets a,b,c / a,b / a,b,d (string values). -/
def c8data : List Value :=
  [.vDict (.cons "a" (.vStr "1") (.cons "b" (.vStr "2") (.cons "c" (.vStr "3") .nil))),
   .vDict (.cons "a" (.vStr "4") (.cons "b" (.vStr "5") .nil)),
   .vDict (.cons "a" (.vStr "6") (.cons "b" (.vStr "7") (.cons "d" (.vStr "8") .nil)))]

/-! ## The Type Consistency Analyzer (src/data/drugbank.py, checktypes_wrapper) -/

/-- The path-to-observed-kinds map: insertion-ordered association list of
(path string, tag list), the tag list duplicate-free in first-seen order
(Python defaultdict(set)). -/
abbrev TypeMap := List (String × List String)

/-- Python set.add on a tag set (modelled as a duplicate-free list). -/
def addTag (tags : List String) (t : String) : List String :=
  if t ∈ tags then tags else tags ++ [t]

/-- type_map[path].add(t) on the insertion-ordered map. -/
def tmAdd : TypeMap → String → String → TypeMap
  | [], path, t => [(path, [t])]
  | (p, tags) :: rest, path, t =>
    if p = path then (p, addTag tags t) :: rest else (p, tags) :: tmAdd rest path t

/-- Association lookup in the type map. -/
def lookupTags : TypeMap → String → Option (List String)
  | [], _ => none
  | (p, tags) :: rest, path => if p = path then some tags else lookupTags rest path

mutual

/-- src lines 374-402: collect_types.  A dict records tag Dict and recurses
into each entry at path extended by " > key"; a list records tag Array and
recurses into each element at path extended by "[]"; None records NoneType;
any other value records its Python type name (str / int here). -/
def collect_types : Value → String → TypeMap → TypeMap
  | .vDict entries, path, tm => collect_entries entries path (tmAdd tm path "Dict")
  | .vList items, path, tm => collect_items items path (tmAdd tm path "Array")
  | .null, path, tm => tmAdd tm path "NoneType"
  | .vStr _, path, tm => tmAdd tm path "str"
  | .vInt _, path, tm => tmAdd tm path "int"

/-- The loop over obj.items() of src lines 388-390. -/
def collect_entries : VDict → String → TypeMap → TypeMap
  | .nil, _, tm => tm
  | .cons k v rest, path, tm =>
    collect_entries rest path
      (collect_types v (if path = "" then k else path ++ " > " ++ k) tm)

/-- The loop over the list items of src lines 394-396. -/
def collect_items : VList → String → TypeMap → TypeMap
  | .nil, _, tm => tm
  | .cons v rest, path, tm =>
    collect_items rest path
      (collect_types v (if path = "" then "[]" else path ++ "[]") tm)

end

/-- src lines 442-444: the type map of a whole record list, each record
collected at the empty path. -/
def collect_all : VList → TypeMap → TypeMap
  | .nil, tm => tm
  | .cons r rest, tm => collect_all rest (collect_types r "" tm)

/-- src lines 404-416: the condition under which find_inconsistencies prints
a path — more than one tag, except any two-tag set containing NoneType
(the continue of src lines 413-414). -/
def inconsistent_reported (types : List String) : Bool :=
  if 1 < types.length then
    if "NoneType" ∈ types ∧ types.length = 2 then false else true
  else false

/-- src lines 404-416: the paths printed by find_inconsistencies. -/
def find_inconsistencies (tm : TypeMap) : List String :=
  (tm.filter fun pt => inconsistent_reported pt.2).map Prod.fst

/-- src lines 418-431: the condition under which find_consistent_paths
prints a path — exactly one tag, or two tags one of which is NoneType. -/
def consistent_reported (types : List String) : Bool :=
  decide (types.length = 1) ||
    (decide (types.length = 2) && decide ("NoneType" ∈ types))

/-- src lines 418-431: the paths printed by find_consistent_paths. -/
def find_consistent_paths (tm : TypeMap) : List String :=
  (tm.filter fun pt => consistent_reported pt.2).map Prod.fst

/-- A scalar kind tag of the analysis (type names of Python scalars). -/
def isScalarTag (t : String) : Bool :=
  t == "str" || t == "int" || t == "float" || t == "bool"

/-- Modelled from the spec: the spec's classification of a genuine
inconsistency — a tag set that is neither a singleton, nor exactly
one scalar kind together with Null, nor exactly List together with Null
(every other multi-kind combination is called a genuine inconsistency and
is to be surfaced). -/
def spec_genuine_inconsistency (types : List String) : Bool :=
  !(decide (types.length = 1) ||
    (decide (types.length = 2) && decide ("NoneType" ∈ types) &&
      (types.any isScalarTag || decide ("Array" ∈ types))))

mutual

/-- src lines 336-372: fix_none, as the value it leaves behind (Python
mutates in place).  An empty path changes nothing; a list is traversed
transparently with the same path (src lines 353-356); in a dict, a segment
containing "[]" descends one list level under the bracket-stripped key with
the rest of the path, any other segment descends under the key itself, and
at the last segment a None value is replaced by the default. -/
def fix_none : Value → List String → Value → Value
  | data, [], _ => data
  | .vList items, cur :: next, dflt => .vList (fix_none_items items (cur :: next) dflt)
  | .vDict entries, cur :: next, dflt =>
    if pyContains cur "[]" then
      match lookupKey entries (pyReplace cur "[]" "") with
      | some (.vList items) =>
        .vDict (setKey entries (pyReplace cur "[]" "") (.vList (fix_none_items items next dflt)))
      | _ => .vDict entries
    else
      match lookupKey entries cur with
      | none => .vDict entries
      | some v =>
        if next ≠ [] then .vDict (setKey entries cur (fix_none v next dflt))
        else if v = Value.null then .vDict (setKey entries cur dflt)
        else .vDict entries
  | data, _ :: _, _ => data
  termination_by v path => (path.length, 2 * sizeOf v)

/-- The item loops of src lines 355-356 and 362-363. -/
def fix_none_items : VList → List String → Value → VList
  | .nil, _, _ => .nil
  | .cons item rest, path, dflt =>
    .cons (fix_none item path dflt) (fix_none_items rest path dflt)
  termination_by items path => (path.length, 2 * sizeOf items + 1)

end

/-- src lines 449-458: one iteration of the healing loop — split the path on
" > ", sort the observed tags, and call fix_none with "" for a
NoneType/str path, [] for an Array/NoneType path, and "" again for a
str-only path; any other tag set is left alone. -/
def heal_step (d : Value) (entry : String × List String) : Value :=
  let paths := pySplit entry.1 " > "
  let types := pySorted entry.2
  if types = ["NoneType", "str"] then fix_none d paths (.vStr "")
  else if types = ["Array", "NoneType"] then fix_none d paths (.vList .nil)
  else if types = ["str"] then fix_none d paths (.vStr "")
  else d

/-- src lines 442-458: the healing phase of checktypes_wrapper — collect the
record list's type map, then fold the healing loop over its entries. -/
def checktypes_heal (records : VList) : Value :=
  (collect_all records []).foldl heal_step (.vList records)

/-! The frame relation of the healing phase: `HealedV a b` says b is a with
some Null values replaced by the empty string or the empty list, and
nothing else changed. -/

mutual

inductive HealedV : Value → Value → Prop where
  | null_keep : HealedV .null .null
  | null_str : HealedV .null (.vStr "")
  | null_list : HealedV .null (.vList .nil)
  | strv (s : String) : HealedV (.vStr s) (.vStr s)
  | intv (n : Int) : HealedV (.vInt n) (.vInt n)
  | list : HealedL xs ys → HealedV (.vList xs) (.vList ys)
  | dict : HealedD es fs → HealedV (.vDict es) (.vDict fs)

inductive HealedL : VList → VList → Prop where
  | nil : HealedL .nil .nil
  | cons : HealedV v w → HealedL xs ys → HealedL (.cons v xs) (.cons w ys)

inductive HealedD : VDict → VDict → Prop where
  | nil : HealedD .nil .nil
  | cons (k : String) : HealedV v w → HealedD es fs → HealedD (.cons k v es) (.cons k w fs)

end

/-- The dataset [{"a": {"b": null}}, {"a": {"b": "x"}}, {"a": [{"b": null}]}]:
path "a > b" observes NoneType and str across the records, while path
"a[] > b" (record 3's null, below a list) observes NoneType only. -/
def c4records : VList :=
  .cons (.vDict (.cons "a" (.vDict (.cons "b" Value.null .nil)) .nil))
  (.cons (.vDict (.cons "a" (.vDict (.cons "b" (.vStr "x") .nil)) .nil))
  (.cons (.vDict (.cons "a" (.vList (.cons (.vDict (.cons "b" Value.null .nil)) .nil)) .nil))
  .nil))

/-! ## Theorems -/

theorem transform_entries_cons (k : String) (v : Value) (rest : VDict) :
    transform_entries (.cons k v rest) = .cons k (transform_entry k v) (transform_entries rest) := by
  cases v with
  | null => rfl
  | vStr s => rfl
  | vInt n => rfl
  | vList l => rfl
  | vDict d =>
    cases d with
    | nil => rfl
    | cons sub inner tail =>
      cases tail with
      | nil =>
        by_cases hc : check_singular_plural sub k
        · simp [transform_entries, transform_entry, hc]
        · simp [transform_entries, transform_entry, transform_json, hc]
      | cons k2 v2 t2 => rfl

theorem value_sizeOf_pos (v : Value) : 0 < sizeOf v := by
  cases v <;> simp_arith

theorem vlist_sizeOf_pos (l : VList) : 0 < sizeOf l := by
  cases l <;> simp_arith

theorem vdict_sizeOf_pos (d : VDict) : 0 < sizeOf d := by
  cases d <;> simp_arith

theorem transform_json_dict (d : VDict) :
    transform_json (.vDict d) = .vDict (transform_entries d) := rfl

theorem transform_entry_vList (key : String) (l : VList) :
    transform_entry key (.vList l) = transform_json (.vList l) := rfl

theorem transform_entry_two (key sub : String) (inner : Value) (k2 : String) (v2 : Value)
    (t2 : VDict) :
    transform_entry key (.vDict (.cons sub inner (.cons k2 v2 t2))) =
      transform_json (.vDict (.cons sub inner (.cons k2 v2 t2))) := rfl

theorem transform_entry_single_pos (key sub : String) (inner : Value)
    (hc : check_singular_plural sub key = true) :
    transform_entry key (.vDict (.cons sub inner .nil)) =
      unify_to_array (transform_json inner) := by
  show (if check_singular_plural sub key then unify_to_array (transform_json inner)
      else transform_json (.vDict (.cons sub inner .nil))) = _
  rw [if_pos hc]

theorem transform_entry_single_neg (key sub : String) (inner : Value)
    (hc : ¬ check_singular_plural sub key = true) :
    transform_entry key (.vDict (.cons sub inner .nil)) =
      .vDict (.cons sub (transform_entry sub inner) .nil) := by
  show (if check_singular_plural sub key then unify_to_array (transform_json inner)
      else transform_json (.vDict (.cons sub inner .nil))) = _
  rw [if_neg hc, transform_json_dict, transform_entries_cons]
  rfl

theorem transform_json_unify (x : Value) (hx : transform_json x = x) :
    transform_json (unify_to_array x) = unify_to_array x := by
  cases x with
  | null => rfl
  | vStr s => rfl
  | vInt n => rfl
  | vList l => simpa [unify_to_array] using hx
  | vDict d =>
    show Value.vList (.cons (transform_json (.vDict d)) .nil) = .vList (.cons (.vDict d) .nil)
    rw [hx]

theorem transform_idem_aux : ∀ n : Nat,
    (∀ v : Value, sizeOf v ≤ n → transform_json (transform_json v) = transform_json v) ∧
    (∀ l : VList, sizeOf l ≤ n → transform_list (transform_list l) = transform_list l) ∧
    (∀ d : VDict, sizeOf d ≤ n → transform_entries (transform_entries d) = transform_entries d) ∧
    (∀ (key : String) (v : Value), sizeOf v ≤ n →
      transform_entry key (transform_entry key v) = transform_entry key v) := by
  intro n
  induction n with
  | zero =>
    refine ⟨fun v hv => absurd hv ?_, fun l hl => absurd hl ?_,
      fun d hd => absurd hd ?_, fun key v hv => absurd hv ?_⟩
    · exact Nat.not_le_of_lt (value_sizeOf_pos v)
    · exact Nat.not_le_of_lt (vlist_sizeOf_pos l)
    · exact Nat.not_le_of_lt (vdict_sizeOf_pos d)
    · exact Nat.not_le_of_lt (value_sizeOf_pos v)
  | succ n ih =>
    obtain ⟨ihA, ihL, ihD, ihB⟩ := ih
    have hA : ∀ v : Value, sizeOf v ≤ n + 1 →
        transform_json (transform_json v) = transform_json v := by
      intro v hv
      cases v with
      | null => rfl
      | vStr s => rfl
      | vInt m => rfl
      | vList l =>
        have hl : sizeOf l ≤ n := by simp at hv; omega
        simp only [transform_json]
        rw [ihL l hl]
      | vDict d =>
        have hd : sizeOf d ≤ n := by simp at hv; omega
        simp only [transform_json]
        rw [ihD d hd]
    have hL : ∀ l : VList, sizeOf l ≤ n + 1 →
        transform_list (transform_list l) = transform_list l := by
      intro l hl
      cases l with
      | nil => rfl
      | cons v rest =>
        have hv : sizeOf v ≤ n := by simp at hl; omega
        have hr : sizeOf rest ≤ n := by simp at hl; omega
        simp only [transform_list]
        rw [ihA v hv, ihL rest hr]
    have hD : ∀ d : VDict, sizeOf d ≤ n + 1 →
        transform_entries (transform_entries d) = transform_entries d := by
      intro d hd
      cases d with
      | nil => rfl
      | cons k v rest =>
        have hv : sizeOf v ≤ n := by simp at hd; omega
        have hr : sizeOf rest ≤ n := by simp at hd; omega
        rw [transform_entries_cons, transform_entries_cons, ihB k v hv, ihD rest hr]
    have hB : ∀ (key : String) (v : Value), sizeOf v ≤ n + 1 →
        transform_entry key (transform_entry key v) = transform_entry key v := by
      intro key v hv
      cases v with
      | null => rfl
      | vStr s => rfl
      | vInt m => rfl
      | vList l =>
        show transform_json (transform_json (.vList l)) = transform_json (.vList l)
        exact hA _ hv
      | vDict d =>
        cases d with
        | nil => rfl
        | cons sub inner tail =>
          cases tail with
          | nil =>
            have hinner : sizeOf inner ≤ n := by simp at hv; omega
            by_cases hc : check_singular_plural sub key
            · rw [transform_entry_single_pos key sub inner hc]
              have hxx : transform_json (transform_json inner) = transform_json inner :=
                ihA inner hinner
              obtain ⟨l, hl⟩ : ∃ l, unify_to_array (transform_json inner) = .vList l := by
                cases transform_json inner <;> exact ⟨_, rfl⟩
              rw [hl, transform_entry_vList, ← hl]
              exact transform_json_unify _ hxx
            · rw [transform_entry_single_neg key sub inner hc,
                transform_entry_single_neg key sub (transform_entry sub inner) hc,
                ihB sub inner hinner]
          | cons k2 v2 t2 =>
            rw [transform_entry_two]
            have hshape : transform_json (.vDict (.cons sub inner (.cons k2 v2 t2))) =
                .vDict (.cons sub (transform_entry sub inner)
                  (.cons k2 (transform_entry k2 v2) (transform_entries t2))) := by
              rw [transform_json_dict, transform_entries_cons, transform_entries_cons]
            rw [hshape, transform_entry_two, ← hshape]
            exact hA _ hv
    exact ⟨hA, hL, hD, hB⟩

/-- C2: plural unification is idempotent: transform_json applied to the output
of transform_json yields that output unchanged, for every value (in
particular for every record set, a list of record dicts); a plural key whose
value is already a list, or that no longer has the singular-wrapper shape, is
left untouched by a second pass. -/
theorem c2_transform_json_idempotent (v : Value) :
    transform_json (transform_json v) = transform_json v :=
  (transform_idem_aux (sizeOf v)).1 v le_rfl

/-- C10: when the singular-wrapper pattern matches and the wrapped child value
is Null, plural unification produces an empty list for the plural key, not a
one-element list containing Null. -/
theorem c10_singular_null_gives_empty_list (singular plural : String)
    (h : check_singular_plural singular plural = true) :
    transform_json (.vDict (.cons plural (.vDict (.cons singular .null .nil)) .nil)) =
      .vDict (.cons plural (.vList .nil) .nil) := by
  simp [transform_json_dict, transform_entries, h, unify_to_array, transform_json]

/-- Witness for C10 at the hard-coded irregular pair category/categories. -/
theorem c10_witness :
    check_singular_plural "category" "categories" = true ∧
    transform_json (.vDict (.cons "categories" (.vDict (.cons "category" .null .nil)) .nil)) =
      .vDict (.cons "categories" (.vList .nil) .nil) :=
  ⟨by decide, c10_singular_null_gives_empty_list "category" "categories" (by decide)⟩

/-- C1 counterexample: an element with non-whitespace direct text, no
attributes but a child is parsed to the Scalar of its trimmed text — the
child is dropped and no Map with a text key is built, contrary to the
claim. -/
theorem c1_counterexample :
    parse_element c1elem = .vStr "x" ∧ c1elem.children ≠ XmlChildren.nil := by
  refine ⟨by decide, by decide⟩

/-- C1 (amended): parse_element returns the trimmed direct text as a Scalar
exactly when the element has non-whitespace direct text and no attributes;
children are not consulted (and are discarded) on that path. -/
theorem c1_scalar_exactly_text_no_attrib (e : XmlElem) (t : String) :
    parse_element e = .vStr t ↔ (elem_direct_text e = t ∧ t ≠ "" ∧ e.attrib = []) := by
  obtain ⟨tag, attrib, text, children⟩ := e
  show parse_element (.mk tag attrib text children) = .vStr t ↔ _
  rw [parse_element]
  by_cases h : elem_direct_text (.mk tag attrib text children) ≠ "" ∧ attrib = []
  · rw [if_pos h]
    simp only [XmlElem.attrib]
    constructor
    · intro h1
      rw [Value.vStr.injEq] at h1
      exact ⟨h1, h1 ▸ h.1, h.2⟩
    · rintro ⟨h1, -, -⟩
      rw [h1]
  · rw [if_neg h]
    simp only [XmlElem.attrib]
    constructor
    · intro h1
      exfalso
      split at h1 <;> split at h1 <;> exact Value.noConfusion h1
    · rintro ⟨h1, h2, h3⟩
      exact absurd ⟨by rw [h1]; exact h2, h3⟩ h

/-- C5 counterexample: under the rule (["products", "ndc_id"], ""), a record
whose products entry lacks the ndc_id key entirely is returned unchanged —
the absent final key is not set to the rule's default, contrary to the
claim's "absent ... is set to the rule's default value". -/
theorem c5_counterexample :
    set_default_if_empty c5rec ["products", "ndc_id"] (.vStr "") = some c5rec ∧
    set_default_if_empty c5rec ["products", "ndc_id"] (.vStr "") ≠
      some (.vDict (.cons "products"
        (.vList (.cons (.vDict (.cons "ndc_id" (.vStr "") .nil)) .nil)) .nil)) := by
  have h : set_default_if_empty c5rec ["products", "ndc_id"] (.vStr "") = some c5rec := by
    simp [c5rec, set_default_if_empty, sdie_loop, sdie_list, sdie_final, lookupKey, setKey,
      lastSegment]
  exact ⟨h, by rw [h]; decide⟩

/-- C5 (amended): for a one-segment path into a Map the corrector runs
exactly the final-key step sdie_final.  There, an absent final key leaves
the dict unchanged; a present non-null str or Map value is wrapped into a
one-element list when the rule's default is a list (so an empty string with
a list default becomes [""], not the default); a present value that is null
— or an empty string when the default is not a list — is set to the rule's
default; and the claim's own scenario holds: {"products": [{"ndc_id":
null}]} under rule (["products", "ndc_id"], "") becomes {"products":
[{"ndc_id": ""}]}. -/
theorem c5_final_segment_behaviour (entries : VDict) (k : String) (dflt : Value) :
    (set_default_if_empty (.vDict entries) [k] dflt = some (.vDict (sdie_final entries k dflt))) ∧
    (lookupKey entries k = none → sdie_final entries k dflt = entries) ∧
    (∀ v, lookupKey entries k = some v → v ≠ Value.null → isStrOrDict v = true →
      isListValue dflt = true →
      sdie_final entries k dflt = setKey entries k (.vList (.cons v .nil))) ∧
    (∀ v, lookupKey entries k = some v →
      (v = Value.null ∨ (v = Value.vStr "" ∧ isListValue dflt = false)) →
      sdie_final entries k dflt = setKey entries k dflt) ∧
    (set_default_if_empty
        (.vDict (.cons "products" (.vList (.cons (.vDict (.cons "ndc_id" Value.null .nil)) .nil)) .nil))
        ["products", "ndc_id"] (.vStr "") =
      some (.vDict (.cons "products"
        (.vList (.cons (.vDict (.cons "ndc_id" (.vStr "") .nil)) .nil)) .nil))) := by
  refine ⟨?_, ?_, ?_, ?_, ?_⟩
  · simp [set_default_if_empty, sdie_loop, lastSegment]
  · intro h
    simp [sdie_final, h]
  · intro v hl hnull hsd hld
    simp [sdie_final, hl, hnull, hsd, hld]
  · intro v hl hcase
    rcases hcase with rfl | ⟨rfl, hue⟩
    · simp [sdie_final, hl]
    · simp [sdie_final, hl, hue]
  · simp [set_default_if_empty, sdie_loop, sdie_list, sdie_final, lookupKey, setKey, lastSegment]

/-- C6 counterexample: applying the rule (["targets", "polypeptide"], []) to
the record {"targets": [[{}]]} raises (path[-1] of an empty path: the inner
list strips the whole remaining path before the dict is reached), modelled
as none — so cardinality correction can raise, contrary to the claim. -/
theorem c6_counterexample :
    set_default_if_empty c6rec ["targets", "polypeptide"] (.vList .nil) = none := by
  simp [c6rec, set_default_if_empty, sdie_loop, sdie_list, lookupKey, lastSegment]

/-- C6 (amended): an intermediate key present with a null or empty-string
value does return the record unmodified (the early return of src lines
106-107). -/
theorem c6_intermediate_null_or_empty_unchanged (entries : VDict) (p : String)
    (ps : List String) (dflt : Value) (hps : ps ≠ [])
    (hv : lookupKey entries p = some Value.null ∨ lookupKey entries p = some (Value.vStr "")) :
    set_default_if_empty (.vDict entries) (p :: ps) dflt = some (.vDict entries) := by
  obtain ⟨q, qs, rfl⟩ : ∃ q qs, ps = q :: qs := by
    cases ps with
    | nil => exact absurd rfl hps
    | cons q qs => exact ⟨q, qs, rfl⟩
  rcases hv with h | h <;> simp [set_default_if_empty, sdie_loop, List.dropLast, h]

/-- Witness for C6's amended theorem: the record {"a": null} under the rule
(["a", "b"], "") is returned unchanged. -/
theorem c6_witness :
    set_default_if_empty (.vDict (.cons "a" Value.null .nil)) ["a", "b"] (.vStr "") =
      some (.vDict (.cons "a" Value.null .nil)) :=
  c6_intermediate_null_or_empty_unchanged (.cons "a" Value.null .nil) "a" ["b"] (.vStr "")
    (by decide) (Or.inl (by decide))

/-- C7 counterexample: a drugbank_id list whose first element "X123" does not
carry the "DrugBank:" prefix is left unprefixed (the code tests
startswith("DB"), not the absence of the prefix), contrary to the claim
that the prefix is applied exactly when it is not already present. -/
theorem c7_counterexample :
    tojson_xrefs_step (.cons "drugbank_id" (.vList (.cons (.vStr "X123") .nil)) .nil) =
      some (.cons "drugbank_id" (.vStr "X123")
        (.cons "xrefs" (.vList (.cons (.vStr "X123") .nil)) .nil)) ∧
    pyStartsWith "X123" "DrugBank:" = false :=
  ⟨by decide, by decide⟩

/-- C7 (amended): for a record whose drugbank_id is a list headed by a
string s, the original list is retained under xrefs and drugbank_id becomes
s prefixed with "DrugBank:" exactly when s starts with "DB". -/
theorem c7_xrefs_and_db_check (entries : VDict) (s : String) (rest : VList)
    (h : lookupKey entries "drugbank_id" = some (.vList (.cons (.vStr s) rest))) :
    tojson_xrefs_step entries =
      some (setKey (setKey entries "xrefs" (.vList (.cons (.vStr s) rest))) "drugbank_id"
        (.vStr (if pyStartsWith s "DB" then "DrugBank:" ++ s else s))) := by
  simp [tojson_xrefs_step, h, indexZero]

/-- Witness for C7's amended theorem at the record
{"drugbank_id": ["DB00001"]}. -/
theorem c7_witness :
    tojson_xrefs_step (.cons "drugbank_id" (.vList (.cons (.vStr "DB00001") .nil)) .nil) =
      some (setKey
        (setKey (.cons "drugbank_id" (.vList (.cons (.vStr "DB00001") .nil)) .nil)
          "xrefs" (.vList (.cons (.vStr "DB00001") .nil)))
        "drugbank_id"
        (.vStr (if pyStartsWith "DB00001" "DB" then "DrugBank:" ++ "DB00001" else "DB00001"))) :=
  c7_xrefs_and_db_check
    (.cons "drugbank_id" (.vList (.cons (.vStr "DB00001") .nil)) .nil)
    "DB00001" .nil (by decide)

theorem lookup_of_mem_keys : ∀ (d : VDict) (f : String),
    f ∈ vdictKeys d → ∃ w, lookupKey d f = some w
  | .nil, f, h => by simp [vdictKeys] at h
  | .cons k v rest, f, h => by
    by_cases hk : k = f
    · exact ⟨v, by simp [lookupKey, hk]⟩
    · have hmem : f ∈ vdictKeys rest := by
        rcases (List.mem_cons).1 h with h1 | h1
        · exact absurd h1.symm hk
        · exact h1
      obtain ⟨w, hw⟩ := lookup_of_mem_keys rest f hmem
      exact ⟨w, by simp [lookupKey, hk, hw]⟩

theorem tsv_row_fields (d : VDict) : ∀ cols : List String,
    (∀ f ∈ cols, f ∈ vdictKeys d) → (tsv_row cols (.vDict d)).map Prod.fst = cols := by
  intro cols
  induction cols with
  | nil => intro _; rfl
  | cons f rest ih =>
    intro h
    obtain ⟨w, hw⟩ := lookup_of_mem_keys d f (h f (by simp))
    have htail := ih (fun g hg => h g (by simp [hg]))
    simp only [tsv_row, List.filterMap_cons, hw, Option.map_some] at htail ⊢
    simp [htail]

theorem inter_fold_spec : ∀ (rest : List Value) (acc : Finset String),
    (∀ v ∈ rest, (item_keys v).isSome = true) →
    ∃ c, inter_fold acc rest = some c ∧
      ∀ f, f ∈ c ↔ (f ∈ acc ∧ ∀ v ∈ rest, ∃ ks, item_keys v = some ks ∧ f ∈ ks) := by
  intro rest
  induction rest with
  | nil =>
    intro acc _
    exact ⟨acc, rfl, by simp⟩
  | cons item tail ih =>
    intro acc h
    obtain ⟨ks, hks⟩ : ∃ ks, item_keys item = some ks := by
      have hi := h item (by simp)
      cases hki : item_keys item
      · rw [hki] at hi; exact Bool.noConfusion hi
      · exact ⟨_, rfl⟩
    obtain ⟨c, hc, hmem⟩ := ih (acc ∩ ks.toFinset) (fun v hv => h v (by simp [hv]))
    refine ⟨c, by simp [inter_fold, hks, hc], ?_⟩
    intro f
    rw [hmem f]
    simp only [Finset.mem_inter, List.mem_toFinset, List.mem_cons]
    constructor
    · rintro ⟨⟨hfa, hfk⟩, hrest⟩
      refine ⟨hfa, ?_⟩
      rintro v (rfl | hv)
      · exact ⟨ks, hks, hfk⟩
      · exact hrest v hv
    · rintro ⟨hfa, hall⟩
      obtain ⟨ks2, hks2, hfk2⟩ := hall item (Or.inl rfl)
      rw [hks] at hks2
      cases hks2
      exact ⟨⟨hfa, hfk2⟩, fun v hv => hall v (Or.inr hv)⟩

theorem common_fields_spec (data : List Value) (hne : data ≠ [])
    (hd : ∀ v ∈ data, (item_keys v).isSome = true) :
    ∃ c, common_fields data = some c ∧
      ∀ f, f ∈ c ↔ ∀ v ∈ data, ∃ ks, item_keys v = some ks ∧ f ∈ ks := by
  cases data with
  | nil => exact absurd rfl hne
  | cons item rest =>
    obtain ⟨ks, hks⟩ : ∃ ks, item_keys item = some ks := by
      have hi := hd item (by simp)
      cases hki : item_keys item
      · rw [hki] at hi; exact Bool.noConfusion hi
      · exact ⟨_, rfl⟩
    obtain ⟨c, hc, hmem⟩ :=
      inter_fold_spec rest ks.toFinset (fun v hv => hd v (by simp [hv]))
    refine ⟨c, by simp [common_fields, hks, hc], ?_⟩
    intro f
    rw [hmem f]
    simp only [List.mem_toFinset, List.mem_cons]
    constructor
    · rintro ⟨hfk, hrest⟩
      rintro v (rfl | hv)
      · exact ⟨ks, hks, hfk⟩
      · exact hrest v hv
    · rintro hall
      obtain ⟨ks2, hks2, hfk2⟩ := hall item (Or.inl rfl)
      rw [hks] at hks2
      cases hks2
      exact ⟨hfk2, fun v hv => hall v (Or.inr hv)⟩

/-- C8: the delimited-text serializer emits exactly the columns present in
every record (the intersection of the records' key sets), one row per
record, and every emitted row consists of exactly those columns — fields
outside the intersection are absent from the output. -/
theorem c8_tsv_common_columns (data : List Value) (hne : data ≠ [])
    (hd : ∀ v ∈ data, (item_keys v).isSome = true) :
    ∃ cols rows, save_data_as_tsv data = some (cols, rows) ∧
      (∀ f, f ∈ cols ↔ ∀ v ∈ data, ∃ ks, item_keys v = some ks ∧ f ∈ ks) ∧
      rows.length = data.length ∧
      ∀ r ∈ rows, r.map Prod.fst = cols := by
  obtain ⟨c, hc, hmem⟩ := common_fields_spec data hne hd
  refine ⟨c.sort (· ≤ ·), data.map (tsv_row (c.sort (· ≤ ·))), ?_, ?_, by simp, ?_⟩
  · simp [save_data_as_tsv, hc]
  · intro f
    rw [← hmem f]
    exact ⟨fun h => (Finset.mem_sort _).1 h, fun h => (Finset.mem_sort _).2 h⟩
  · intro r hr
    obtain ⟨v, hv, rfl⟩ := List.mem_map.1 hr
    obtain ⟨ks, hks⟩ : ∃ ks, item_keys v = some ks := by
      have hi := hd v hv
      cases hki : item_keys v
      · rw [hki] at hi; exact Bool.noConfusion hi
      · exact ⟨_, rfl⟩
    obtain ⟨d, rfl⟩ : ∃ d, v = .vDict d := by
      cases v <;> simp [item_keys] at hks
      exact ⟨_, rfl⟩
    apply tsv_row_fields
    intro f hf
    obtain ⟨ks2, hks2, hfk⟩ := (hmem f).1 ((Finset.mem_sort _).1 hf) (.vDict d) hv
    simp only [item_keys, Option.some_inj] at hks2
    rw [hks2]
    exact hfk

/-- Witness for C8 at the spec's table-serialization scenario. -/
theorem c8_witness :
    ∃ cols rows, save_data_as_tsv c8data = some (cols, rows) ∧
      (∀ f, f ∈ cols ↔ ∀ v ∈ c8data, ∃ ks, item_keys v = some ks ∧ f ∈ ks) ∧
      rows.length = c8data.length ∧
      ∀ r ∈ rows, r.map Prod.fst = cols :=
  c8_tsv_common_columns c8data (by decide) (by decide)

/-- C9: for the empty record list, save_data_as_tsv raises (set.intersection
applied to zero sets), modelled as none, instead of producing an empty
table. -/
theorem c9_empty_record_list_raises : save_data_as_tsv [] = none := rfl

/-- C3 counterexample: the tag set of Map together with Null is a genuine
inconsistency by the spec's classification, but find_inconsistencies skips
it (any two-tag set containing NoneType is skipped) and
find_consistent_paths even reports it as consistent. -/
theorem c3_counterexample :
    inconsistent_reported ["Dict", "NoneType"] = false ∧
    spec_genuine_inconsistency ["Dict", "NoneType"] = true ∧
    consistent_reported ["Dict", "NoneType"] = true := by
  decide

theorem inconsistent_reported_iff (types : List String) :
    inconsistent_reported types = true ↔
      (1 < types.length ∧ ¬("NoneType" ∈ types ∧ types.length = 2)) := by
  unfold inconsistent_reported
  split_ifs with h1 h2
  · simp [h1, h2]
  · simp [h1, h2]
  · simp [h1]

/-- C3 (amended): the analysis reports a path as an inconsistency exactly
when its tag set has more than one member and is not a two-element set
consisting of NoneType and one other kind (whatever that kind is — Map
included); and every non-empty tag set is surfaced by one of the two
reports, never silently dropped. -/
theorem c3_inconsistency_report_condition (types : List String) :
    (inconsistent_reported types = true ↔
      (1 < types.length ∧ ¬ ∃ t, types.Perm ["NoneType", t])) ∧
    (types ≠ [] → (inconsistent_reported types || consistent_reported types) = true) := by
  constructor
  · rw [inconsistent_reported_iff]
    have key : ("NoneType" ∈ types ∧ types.length = 2) ↔ ∃ t, types.Perm ["NoneType", t] := by
      constructor
      · rintro ⟨hmem, hlen⟩
        obtain ⟨a, b, rfl⟩ : ∃ a b, types = [a, b] := by
          cases types with
          | nil => simp at hlen
          | cons a t =>
            cases t with
            | nil => simp at hlen
            | cons b t2 =>
              cases t2 with
              | nil => exact ⟨a, b, rfl⟩
              | cons c t3 => simp at hlen
        rcases List.mem_cons.1 hmem with h | h
        · exact ⟨b, by rw [← h]⟩
        · have hb : "NoneType" = b := by simpa using h
          subst hb
          exact ⟨a, List.Perm.swap "NoneType" a []⟩
      · rintro ⟨t, h⟩
        exact ⟨h.mem_iff.2 (by simp), by simpa using h.length_eq⟩
    exact and_congr Iff.rfl (not_congr key)
  · intro hne
    by_cases h1 : 1 < types.length
    · by_cases h2 : "NoneType" ∈ types ∧ types.length = 2
      · simp [consistent_reported, h2.1, h2.2]
      · simp [inconsistent_reported, h1, h2]
    · have hlen : types.length = 1 := by
        have hpos : 0 < types.length := List.length_pos.2 hne
        omega
      simp [consistent_reported, hlen]

mutual

theorem healedV_refl : ∀ v : Value, HealedV v v
  | .null => .null_keep
  | .vStr s => .strv s
  | .vInt n => .intv n
  | .vList l => .list (healedL_refl l)
  | .vDict d => .dict (healedD_refl d)

theorem healedL_refl : ∀ l : VList, HealedL l l
  | .nil => .nil
  | .cons v rest => .cons (healedV_refl v) (healedL_refl rest)

theorem healedD_refl : ∀ d : VDict, HealedD d d
  | .nil => .nil
  | .cons k v rest => .cons k (healedV_refl v) (healedD_refl rest)

end

mutual

theorem healedV_trans : ∀ (a b c : Value), HealedV a b → HealedV b c → HealedV a c
  | .null, _, c, h1, h2 => by
    cases h1 with
    | null_keep => exact h2
    | null_str => cases h2; exact .null_str
    | null_list =>
      cases h2 with
      | list hl => cases hl; exact .null_list
  | .vStr s, _, c, h1, h2 => by cases h1; exact h2
  | .vInt n, _, c, h1, h2 => by cases h1; exact h2
  | .vList xs, _, c, h1, h2 => by
    cases h1 with
    | list hxy =>
      cases h2 with
      | list hyz => exact .list (healedL_trans _ _ _ hxy hyz)
  | .vDict es, _, c, h1, h2 => by
    cases h1 with
    | dict hxy =>
      cases h2 with
      | dict hyz => exact .dict (healedD_trans _ _ _ hxy hyz)

theorem healedL_trans : ∀ (xs ys zs : VList), HealedL xs ys → HealedL ys zs → HealedL xs zs
  | .nil, _, zs, h1, h2 => by cases h1; exact h2
  | .cons v xs, _, zs, h1, h2 => by
    cases h1 with
    | cons hv hl =>
      cases h2 with
      | cons hv2 hl2 => exact .cons (healedV_trans _ _ _ hv hv2) (healedL_trans _ _ _ hl hl2)

theorem healedD_trans : ∀ (xs ys zs : VDict), HealedD xs ys → HealedD ys zs → HealedD xs zs
  | .nil, _, zs, h1, h2 => by cases h1; exact h2
  | .cons k v xs, _, zs, h1, h2 => by
    cases h1 with
    | cons _ hv hl =>
      cases h2 with
      | cons _ hv2 hl2 => exact .cons k (healedV_trans _ _ _ hv hv2) (healedD_trans _ _ _ hl hl2)

end

theorem healedD_setKey : ∀ (es : VDict) (k : String) (v w : Value),
    lookupKey es k = some v → HealedV v w → HealedD es (setKey es k w)
  | .nil, k, v, w, hl, _ => by simp [lookupKey] at hl
  | .cons k1 v1 rest, k, v, w, hl, hw => by
    by_cases hk : k1 = k
    · rw [lookupKey, if_pos hk, Option.some_inj] at hl
      rw [setKey, if_pos hk]
      exact .cons k1 (hl ▸ hw) (healedD_refl rest)
    · rw [lookupKey, if_neg hk] at hl
      rw [setKey, if_neg hk]
      exact .cons k1 (healedV_refl v1) (healedD_setKey rest k v w hl hw)

mutual

theorem fix_none_healed : ∀ (v : Value) (path : List String) (dflt : Value),
    (dflt = Value.vStr "" ∨ dflt = Value.vList VList.nil) →
    HealedV v (fix_none v path dflt)
  | v, [], dflt, _ => by
    have h : fix_none v [] dflt = v := by simp [fix_none]
    rw [h]
    exact healedV_refl v
  | .null, cur :: next, dflt, _ => by
    have h : fix_none .null (cur :: next) dflt = .null := by simp [fix_none]
    rw [h]
    exact healedV_refl _
  | .vStr s, cur :: next, dflt, _ => by
    have h : fix_none (.vStr s) (cur :: next) dflt = .vStr s := by simp [fix_none]
    rw [h]
    exact healedV_refl _
  | .vInt n, cur :: next, dflt, _ => by
    have h : fix_none (.vInt n) (cur :: next) dflt = .vInt n := by simp [fix_none]
    rw [h]
    exact healedV_refl _
  | .vList items, cur :: next, dflt, hd => by
    have h : fix_none (.vList items) (cur :: next) dflt =
        .vList (fix_none_items items (cur :: next) dflt) := by simp [fix_none]
    rw [h]
    exact .list (fix_none_items_healed items (cur :: next) dflt hd)
  | .vDict entries, cur :: next, dflt, hd => by
    rw [show fix_none (.vDict entries) (cur :: next) dflt =
        (if pyContains cur "[]" then
          match lookupKey entries (pyReplace cur "[]" "") with
          | some (.vList items) =>
            Value.vDict (setKey entries (pyReplace cur "[]" "")
              (.vList (fix_none_items items next dflt)))
          | _ => .vDict entries
        else
          match lookupKey entries cur with
          | none => .vDict entries
          | some v =>
            if next ≠ [] then .vDict (setKey entries cur (fix_none v next dflt))
            else if v = Value.null then .vDict (setKey entries cur dflt)
            else .vDict entries) from by simp [fix_none]]
    by_cases hct : pyContains cur "[]" = true
    · rw [if_pos hct]
      rcases hlk : lookupKey entries (pyReplace cur "[]" "") with - | v
      · exact healedV_refl _
      · cases v with
        | vList items =>
          exact .dict (healedD_setKey entries (pyReplace cur "[]" "") _ _ hlk
            (.list (fix_none_items_healed items next dflt hd)))
        | null => exact healedV_refl _
        | vStr s => exact healedV_refl _
        | vInt n => exact healedV_refl _
        | vDict d => exact healedV_refl _
    · rw [if_neg hct]
      rcases hlk : lookupKey entries cur with - | v
      · exact healedV_refl _
      · show HealedV (Value.vDict entries)
          (if next ≠ [] then Value.vDict (setKey entries cur (fix_none v next dflt))
            else if v = Value.null then Value.vDict (setKey entries cur dflt)
            else Value.vDict entries)
        by_cases hnx : next ≠ []
        · rw [if_pos hnx]
          exact .dict (healedD_setKey entries cur v _ hlk (fix_none_healed v next dflt hd))
        · rw [if_neg hnx]
          by_cases hnull : v = Value.null
          · rw [if_pos hnull]
            refine .dict (healedD_setKey entries cur v dflt hlk ?_)
            subst hnull
            rcases hd with rfl | rfl
            · exact .null_str
            · exact .null_list
          · rw [if_neg hnull]
            exact healedV_refl _
  termination_by v path => (path.length, 2 * sizeOf v)

theorem fix_none_items_healed : ∀ (items : VList) (path : List String) (dflt : Value),
    (dflt = Value.vStr "" ∨ dflt = Value.vList VList.nil) →
    HealedL items (fix_none_items items path dflt)
  | .nil, path, dflt, _ => by
    have h : fix_none_items .nil path dflt = .nil := by simp [fix_none_items]
    rw [h]
    exact .nil
  | .cons item rest, path, dflt, hd => by
    have h : fix_none_items (.cons item rest) path dflt =
        .cons (fix_none item path dflt) (fix_none_items rest path dflt) := by
      simp [fix_none_items]
    rw [h]
    exact .cons (fix_none_healed item path dflt hd) (fix_none_items_healed rest path dflt hd)
  termination_by items path => (path.length, 2 * sizeOf items + 1)

end

theorem heal_step_healed (d : Value) (e : String × List String) : HealedV d (heal_step d e) := by
  simp only [heal_step]
  split_ifs with h1 h2 h3
  · exact fix_none_healed d _ _ (Or.inl rfl)
  · exact fix_none_healed d _ _ (Or.inr rfl)
  · exact fix_none_healed d _ _ (Or.inl rfl)
  · exact healedV_refl d

theorem heal_fold_healed : ∀ (tm : TypeMap) (a d : Value),
    HealedV a d → HealedV a (tm.foldl heal_step d) := by
  intro tm
  induction tm with
  | nil => intro a d h; exact h
  | cons e rest ih =>
    intro a d h
    exact ih a (heal_step d e) (healedV_trans a d (heal_step d e) h (heal_step_healed d e))

/-- C4 (amended): the healing phase only ever rewrites Null values, each
rewritten Null becoming the empty string or the empty list; every non-Null
value in every record is left unchanged (HealedV allows nothing else). -/
theorem c4_heal_only_rewrites_nulls (records : VList) :
    HealedV (.vList records) (checktypes_heal records) := by
  unfold checktypes_heal
  exact heal_fold_healed _ _ _ (healedV_refl _)

/-- C4 counterexample: healing the dataset rewrites record 3's Null — which
sits at path "a[] > b", whose dataset-wide tag set is the singleton
{NoneType}, not {string, Null} and not {List, Null} — to the empty string,
because fix_none for the {string, Null} path "a > b" traverses the
intervening list transparently.  The claim says a value at a path with any
other tag set is left unchanged. -/
theorem c4_counterexample :
    checktypes_heal c4records =
      .vList (.cons (.vDict (.cons "a" (.vDict (.cons "b" (.vStr "") .nil)) .nil))
        (.cons (.vDict (.cons "a" (.vDict (.cons "b" (.vStr "x") .nil)) .nil))
        (.cons (.vDict (.cons "a"
          (.vList (.cons (.vDict (.cons "b" (.vStr "") .nil)) .nil)) .nil))
        .nil))) ∧
    lookupTags (collect_all c4records []) "a[] > b" = some ["NoneType"] := by
  constructor
  · have htm : collect_all c4records [] =
        [("", ["Dict"]), ("a", ["Dict", "Array"]), ("a > b", ["NoneType", "str"]),
         ("a[]", ["Dict"]), ("a[] > b", ["NoneType"])] := by decide
    rw [checktypes_heal, htm]
    have e0 : pySorted ["Dict"] = ["Dict"] := by decide
    have e1 : pySorted ["Dict", "Array"] = ["Array", "Dict"] := by decide
    have e2 : pySorted ["NoneType", "str"] = ["NoneType", "str"] := by decide
    have e3 : pySorted ["NoneType"] = ["NoneType"] := by decide
    have s1 : pySplit "a > b" " > " = ["a", "b"] := by decide
    have pca : pyContains "a" "[]" = false := by decide
    have pcb : pyContains "b" "[]" = false := by decide
    simp only [List.foldl, heal_step, e0, e1, e2, e3, s1]
    simp [c4records, fix_none, fix_none_items, lookupKey, setKey, pca, pcb]
  · decide
